import Mathlib

/-!
Verification development for the codebase sanitizer
(scripts/sanitize_codebase.py).

The script is a regex-driven text scrubber.  We embed it shallowly:

* text is a list of Unicode code points (`Text := List Nat`), matching
  Python's view of `str` as a sequence of code points;
* each regular expression of the script is embedded either as an AST for a
  small backtracking matcher (`RE`, used for the boolean `re.search` and
  `re.findall` calls) or as a hand-derived deterministic matcher that
  computes the leftmost match and its replacement exactly as Python's
  backtracking engine does on that particular pattern (used for the
  `re.sub`/`re.subn` calls);
* the file system operations of the orchestrator (`os.walk`, open for
  read/write) are modelled by a directory tree, a disk function from
  paths to optional contents (`none` = unreadable file) and a
  write-success oracle.

Python-specific conventions that the embedding mirrors:
* `str.split('\n')` never returns an empty list; splitting the empty
  string gives `[""]`;
* `'\n'.join` interleaves a single newline;
* `pathlib.Path.suffix` is the part of the final path segment from its
  last dot, empty when the dot is missing, leading or trailing;
* `re` scanning is leftmost with greedy backtracking; replacement scans
  restart right after the replaced span.

Case folding in `str.lower()` and `re.IGNORECASE` is modelled on the
ASCII range, which covers every pattern literal of the script.
-/

namespace Sanitizer

/-- Text as a sequence of Unicode code points, Python's `str`. -/
abbrev Text : Type := List Nat

/-- Code points of a Lean string literal, used to write concrete inputs. -/
def s2l (s : String) : Text := s.toList.map Char.toNat

/-- Python's `\s` class: space, tab, newline, carriage return, vertical
tab, form feed (ASCII range of the Unicode whitespace class). -/
def isWs (c : Nat) : Bool :=
  c == 32 || c == 9 || c == 10 || c == 13 || c == 11 || c == 12

/-- ASCII lowering, the model of `str.lower()` and of `re.IGNORECASE`
comparisons (all pattern literals of the script are ASCII). -/
def lowerN (c : Nat) : Nat :=
  if 65 ≤ c ∧ c ≤ 90 then c + 32 else c

/-- Python's `\w` class restricted to ASCII: letters, digits, underscore. -/
def isWordChar (c : Nat) : Bool :=
  (65 ≤ c && c ≤ 90) || (97 ≤ c && c ≤ 122) || (48 ≤ c && c ≤ 57) || c == 95

/-- `content.split('\n')`: Python string split at every newline.
Never returns `[]`; the empty string splits to `[[]]`. -/
def pySplitNL : Text → List Text
  | [] => [[]]
  | c :: r =>
    match pySplitNL r with
    | [] => [[c]]
    | l :: ls => if c == 10 then [] :: l :: ls else (c :: l) :: ls

/-- `'\n'.join(lines)`. -/
def joinNL : List Text → Text
  | [] => []
  | [l] => l
  | l :: ls => l ++ (10 :: joinNL ls)

theorem pySplitNL_ne_nil (t : Text) : pySplitNL t ≠ [] := by
  cases t with
  | nil => simp [pySplitNL]
  | cons c r =>
    unfold pySplitNL
    cases h : pySplitNL r with
    | nil => simp
    | cons l ls => by_cases hc : c == 10 <;> simp [hc]

theorem pySplitNL_no_newline (t : Text) :
    ∀ l ∈ pySplitNL t, (10 : Nat) ∉ l := by
  induction t with
  | nil => intro l hl; simp [pySplitNL] at hl; simp [hl]
  | cons c r ih =>
    intro l hl
    unfold pySplitNL at hl
    cases h : pySplitNL r with
    | nil => exact absurd h (pySplitNL_ne_nil r)
    | cons l0 ls =>
      rw [h] at hl
      by_cases hc : c == 10
      · simp [hc] at hl
        rcases hl with h1 | h1 | h1
        · simp [h1]
        · exact ih l (by rw [h, h1]; exact List.mem_cons_self _ _)
        · exact ih l (by rw [h]; exact List.mem_cons_of_mem _ h1)
      · simp [hc] at hl
        rcases hl with h1 | h1
        · subst h1
          have h0 : (10 : Nat) ∉ l0 := ih l0 (by rw [h]; exact List.mem_cons_self _ _)
          intro hmem
          rcases List.mem_cons.mp hmem with h2 | h2
          · exact absurd h2.symm (by simpa using hc)
          · exact h0 h2
        · exact ih l (by rw [h]; exact List.mem_cons_of_mem _ h1)

/-- A newline-free text splits to itself alone. -/
theorem pySplitNL_no_nl_eq (l : Text) (h : (10 : Nat) ∉ l) :
    pySplitNL l = [l] := by
  induction l with
  | nil => rfl
  | cons c r ih =>
    have hc : c ≠ 10 := fun hceq => h (by simp [hceq])
    have hr : (10 : Nat) ∉ r := fun hm => h (List.mem_cons_of_mem _ hm)
    unfold pySplitNL
    rw [ih hr]
    simp [hc]

theorem pySplitNL_append_nl (l r : Text) (h : (10 : Nat) ∉ l) :
    pySplitNL (l ++ (10 :: r)) = l :: pySplitNL r := by
  induction l with
  | nil =>
    show pySplitNL (10 :: r) = [] :: pySplitNL r
    cases hr : pySplitNL r with
    | nil => exact absurd hr (pySplitNL_ne_nil r)
    | cons l0 ls => simp [pySplitNL, hr]
  | cons c cs ih =>
    have hc : c ≠ 10 := fun hceq => h (by simp [hceq])
    have hcs : (10 : Nat) ∉ cs := fun hm => h (List.mem_cons_of_mem _ hm)
    show pySplitNL (c :: (cs ++ (10 :: r))) = (c :: cs) :: pySplitNL r
    have h2 := ih hcs
    simp [pySplitNL, h2, hc]

/-- Joining then splitting recovers the lines, for a nonempty list of
newline-free lines (exactly the shape produced by a previous split). -/
theorem pySplitNL_joinNL (ls : List Text) (hne : ls ≠ [])
    (h : ∀ l ∈ ls, (10 : Nat) ∉ l) : pySplitNL (joinNL ls) = ls := by
  induction ls with
  | nil => exact absurd rfl hne
  | cons l rest ih =>
    cases rest with
    | nil =>
      show pySplitNL (joinNL [l]) = [l]
      exact pySplitNL_no_nl_eq l (h l (List.mem_cons_self _ _))
    | cons l2 rest2 =>
      show pySplitNL (l ++ (10 :: joinNL (l2 :: rest2))) = l :: l2 :: rest2
      rw [pySplitNL_append_nl _ _ (h l (List.mem_cons_self _ _))]
      rw [ih (by simp) (fun x hx => h x (List.mem_cons_of_mem _ hx))]

/-! ## A small backtracking regex matcher

Used to embed the patterns the script only ever searches or counts with
(`re.search` in `remove_ai_lines`, `re.findall` in `check_suspicious`).
Matching is continuation-passing with explicit fuel; alternation prefers
its left branch and `star` is greedy, as in Python's `re`.  `bol` is `^`
without `re.MULTILINE` (start of string only) and `eol` is `$` without
`re.MULTILINE` (end of string, or just before a final newline). -/

inductive RE where
  | eps
  | cls (p : Nat → Bool)
  | seq (a b : RE)
  | alt (a b : RE)
  | star (a : RE)
  | bol
  | eol

def reM : Nat → RE → Bool → Text → (Bool → Text → Option Text) → Option Text
  | 0, _, _, _, _ => none
  | f+1, r, st, t, k =>
    match r with
    | .eps => k st t
    | .cls p =>
      match t with
      | [] => none
      | c :: rest => if p c then k false rest else none
    | .seq a b => reM f a st t (fun st2 t2 => reM f b st2 t2 k)
    | .alt a b => (reM f a st t k) <|> (reM f b st t k)
    | .star a => (reM f a st t (fun st2 t2 => reM f (.star a) st2 t2 k)) <|> k st t
    | .bol => if st then k st t else none
    | .eol => if t = [] ∨ t = [10] then k st t else none

def reSize : RE → Nat
  | .eps => 1
  | .cls _ => 1
  | .seq a b => reSize a + reSize b + 1
  | .alt a b => reSize a + reSize b + 1
  | .star a => reSize a + 2
  | .bol => 1
  | .eol => 1

/-- Fuel that comfortably bounds the depth of any backtracking path for
our patterns (whose starred subterms always consume a character). -/
def fuelFor (r : RE) (t : Text) : Nat :=
  (reSize r + 2) * (t.length + 2)

/-- Attempt a match of `r` at the current position (`st` = the position
is the start of the string); returns the remainder after the preferred
(leftmost-greedy) match. -/
def reTryRem (r : RE) (st : Bool) (t : Text) : Option Text :=
  reM (fuelFor r t) r st t (fun _ rem => some rem)

def reSearchAux (r : RE) : Nat → Bool → Text → Bool
  | 0, st, t => (reTryRem r st t).isSome
  | f+1, st, t =>
    (reTryRem r st t).isSome ||
      match t with
      | [] => false
      | _ :: rest => reSearchAux r f false rest

/-- `re.search(r, t)` as a Boolean: a match starting at some position. -/
def reSearch (r : RE) (t : Text) : Bool :=
  reSearchAux r t.length true t

/-- `len(re.findall(r, t))`: matches counted left to right, scanning
resuming after each match (advancing one position on a zero-width
match, which our patterns never produce). -/
def findallCount (r : RE) : Nat → Bool → Text → Nat
  | 0, _, _ => 0
  | f+1, st, t =>
    match reTryRem r st t with
    | some rem =>
      if rem.length < t.length then 1 + findallCount r f false rem
      else
        match t with
        | [] => 1
        | _ :: rest => 1 + findallCount r f false rest
    | none =>
      match t with
      | [] => 0
      | _ :: rest => findallCount r f false rest

def reCount (r : RE) (t : Text) : Nat :=
  findallCount r (t.length + 1) true t

/-! ### Combinators used to transcribe the script's patterns -/

def cat : List RE → RE
  | [] => RE.eps
  | [r] => r
  | r :: rs => RE.seq r (cat rs)

def alts : List RE → RE
  | [] => RE.cls (fun _ => false)
  | [r] => r
  | r :: rs => RE.alt r (alts rs)

/-- A single character, compared case-insensitively (`re.IGNORECASE`). -/
def chI (c : Char) : RE := RE.cls (fun x => lowerN x == lowerN c.toNat)

/-- A literal string under `re.IGNORECASE`. -/
def strI (s : String) : RE := cat (s.toList.map chI)

def altsI (ws : List String) : RE := alts (ws.map strI)

def ws0 : RE := RE.star (RE.cls isWs)

def ws1 : RE := RE.seq (RE.cls isWs) ws0

def opt (r : RE) : RE := RE.alt r RE.eps

def wordPlus : RE := RE.seq (RE.cls isWordChar) (RE.star (RE.cls isWordChar))

/-- The recurring lead-in of the `//`-style line patterns: the raw text
of the Python source also repeats it per pattern. -/
def slashPre : RE := cat [RE.bol, ws0, strI "//", ws0]

/-- The recurring lead-in of the Python-comment line patterns. -/
def hashPre : RE := cat [RE.bol, ws0, strI "# ", ws0]

/-- `AI_LINE_PATTERNS`: searched with `re.IGNORECASE`, one list entry
per Python pattern, in source order. -/
def AI_LINE_PATTERNS : List RE := [
  -- ^\s*//\s*(AI|GPT|Claude|Copilot|ChatGPT|OpenAI|Anthropic)\s*(generated|created|wrote|assisted|helped)
  cat [slashPre, altsI ["AI", "GPT", "Claude", "Copilot", "ChatGPT", "OpenAI", "Anthropic"],
       ws0, altsI ["generated", "created", "wrote", "assisted", "helped"]],
  -- ^\s*//\s*Generated\s+by\s+(AI|GPT|Claude|Copilot|ChatGPT|assistant)
  cat [slashPre, strI "Generated", ws1, strI "by", ws1,
       altsI ["AI", "GPT", "Claude", "Copilot", "ChatGPT", "assistant"]],
  -- ^\s*//\s*Created\s+(with|using)\s+(AI|GPT|Claude|Copilot|ChatGPT)
  cat [slashPre, strI "Created", ws1, altsI ["with", "using"], ws1,
       altsI ["AI", "GPT", "Claude", "Copilot", "ChatGPT"]],
  -- ^\s*//\s*Auto-?generated\s*$
  cat [slashPre, strI "Auto", opt (strI "-"), strI "generated", ws0, RE.eol],
  -- ^\s*//\s*This\s+(code|function|method|class|component)\s+was\s+(generated|created|written)\s+by
  cat [slashPre, strI "This", ws1, altsI ["code", "function", "method", "class", "component"],
       ws1, strI "was", ws1, altsI ["generated", "created", "written"], ws1, strI "by"],
  -- ^\s*# \s*(AI|GPT|Claude|Copilot|ChatGPT|OpenAI|Anthropic)\s*(generated|created|wrote|assisted|helped)
  cat [hashPre, altsI ["AI", "GPT", "Claude", "Copilot", "ChatGPT", "OpenAI", "Anthropic"],
       ws0, altsI ["generated", "created", "wrote", "assisted", "helped"]],
  -- ^\s*//\s*Initialize\s+(the\s+)?variables?\s*$
  cat [slashPre, strI "Initialize", ws1, opt (cat [strI "the", ws1]),
       strI "variable", opt (strI "s"), ws0, RE.eol],
  -- ^\s*//\s*Return\s+(the\s+)?results?\s*$
  cat [slashPre, strI "Return", ws1, opt (cat [strI "the", ws1]),
       strI "result", opt (strI "s"), ws0, RE.eol],
  -- ^\s*//\s*Import\s+(the\s+)?(required\s+)?(modules?|dependencies|packages)\s*$
  cat [slashPre, strI "Import", ws1, opt (cat [strI "the", ws1]),
       opt (cat [strI "required", ws1]),
       alts [cat [strI "module", opt (strI "s")], strI "dependencies", strI "packages"],
       ws0, RE.eol],
  -- ^\s*//\s*Export\s+(the\s+)?(module|function|class|component)\s*$
  cat [slashPre, strI "Export", ws1, opt (cat [strI "the", ws1]),
       altsI ["module", "function", "class", "component"], ws0, RE.eol],
  -- ^\s*//\s*Define\s+(the\s+)?(function|method|class|variable)\s*$
  cat [slashPre, strI "Define", ws1, opt (cat [strI "the", ws1]),
       altsI ["function", "method", "class", "variable"], ws0, RE.eol],
  -- ^\s*//\s*Create\s+(a\s+)?(new\s+)?(instance|object)\s*$
  cat [slashPre, strI "Create", ws1, opt (cat [strI "a", ws1]),
       opt (cat [strI "new", ws1]), altsI ["instance", "object"], ws0, RE.eol],
  -- ^\s*//\s*Call\s+(the\s+)?(function|method)\s*$
  cat [slashPre, strI "Call", ws1, opt (cat [strI "the", ws1]),
       altsI ["function", "method"], ws0, RE.eol],
  -- ^\s*//\s*Check\s+if\s*$
  cat [slashPre, strI "Check", ws1, strI "if", ws0, RE.eol],
  -- ^\s*//\s*Loop\s+(through|over)\s*$
  cat [slashPre, strI "Loop", ws1, altsI ["through", "over"], ws0, RE.eol],
  -- ^\s*//\s*Handle\s+(the\s+)?error\s*$
  cat [slashPre, strI "Handle", ws1, opt (cat [strI "the", ws1]), strI "error", ws0, RE.eol],
  -- ^\s*//\s*Set\s+(the\s+)?(value|state)\s*$
  cat [slashPre, strI "Set", ws1, opt (cat [strI "the", ws1]),
       altsI ["value", "state"], ws0, RE.eol],
  -- ^\s*//\s*Get\s+(the\s+)?(value|data)\s*$
  cat [slashPre, strI "Get", ws1, opt (cat [strI "the", ws1]),
       altsI ["value", "data"], ws0, RE.eol],
  -- ^\s*//\s*Update\s+(the\s+)?(state|value)\s*$
  cat [slashPre, strI "Update", ws1, opt (cat [strI "the", ws1]),
       altsI ["state", "value"], ws0, RE.eol],
  -- ^\s*//\s*Add\s+(the\s+)?(item|element)\s*$
  cat [slashPre, strI "Add", ws1, opt (cat [strI "the", ws1]),
       altsI ["item", "element"], ws0, RE.eol],
  -- ^\s*//\s*Remove\s+(the\s+)?(item|element)\s*$
  cat [slashPre, strI "Remove", ws1, opt (cat [strI "the", ws1]),
       altsI ["item", "element"], ws0, RE.eol],
  -- ^\s*//\s*This\s+is\s+(a|the)\s+\w+\s+(function|method|class|component)\s*$
  cat [slashPre, strI "This", ws1, strI "is", ws1, altsI ["a", "the"], ws1, wordPlus,
       ws1, altsI ["function", "method", "class", "component"], ws0, RE.eol],
  -- ^\s*//\s*End\s+of\s+(function|method|class|file|module)\s*$
  cat [slashPre, strI "End", ws1, strI "of", ws1,
       altsI ["function", "method", "class", "file", "module"], ws0, RE.eol],
  -- ^\s*//\s*Start\s+of\s+(function|method|class|file|module)\s*$
  cat [slashPre, strI "Start", ws1, strI "of", ws1,
       altsI ["function", "method", "class", "file", "module"], ws0, RE.eol],
  -- ^\s*//\s*(Here|Now|First|Next|Then|Finally)\s+(we|I)\s+(will|can|should|need\s+to)
  cat [slashPre, altsI ["Here", "Now", "First", "Next", "Then", "Finally"], ws1,
       altsI ["we", "I"], ws1,
       alts [strI "will", strI "can", strI "should", cat [strI "need", ws1, strI "to"]]],
  -- ^\s*//\s*As\s+(requested|per\s+your\s+request|you\s+asked)
  cat [slashPre, strI "As", ws1,
       alts [strI "requested", cat [strI "per", ws1, strI "your", ws1, strI "request"],
             cat [strI "you", ws1, strI "asked"]]],
  -- ^\s*//\s*Based\s+on\s+(your|the)\s+(requirements?|request|specifications?)
  cat [slashPre, strI "Based", ws1, strI "on", ws1, altsI ["your", "the"], ws1,
       alts [cat [strI "requirement", opt (strI "s")], strI "request",
             cat [strI "specification", opt (strI "s")]]],
  -- ^\s*//\s*I've\s+(added|created|implemented|updated|fixed)
  cat [slashPre, strI "I've", ws1, altsI ["added", "created", "implemented", "updated", "fixed"]],
  -- ^\s*//\s*Let's\s+
  cat [slashPre, strI "Let's", ws1],
  -- ^\s*//\s*We\s+(need|can|should|will)\s+
  cat [slashPre, strI "We", ws1, altsI ["need", "can", "should", "will"], ws1],
  -- ^\s*# \s*(Here|Now|First|Next|Then|Finally)\s+(we|I)\s+(will|can|should|need\s+to)
  cat [hashPre, altsI ["Here", "Now", "First", "Next", "Then", "Finally"], ws1,
       altsI ["we", "I"], ws1,
       alts [strI "will", strI "can", strI "should", cat [strI "need", ws1, strI "to"]]],
  -- ^\s*# \s*As\s+(requested|per\s+your\s+request|you\s+asked)
  cat [hashPre, strI "As", ws1,
       alts [strI "requested", cat [strI "per", ws1, strI "your", ws1, strI "request"],
             cat [strI "you", ws1, strI "asked"]]],
  -- ^\s*# \s*I've\s+(added|created|implemented|updated|fixed)
  cat [hashPre, strI "I've", ws1, altsI ["added", "created", "implemented", "updated", "fixed"]],
  -- ^\s*# \s*Let's\s+
  cat [hashPre, strI "Let's", ws1],
  -- ^(\s*)//\s*$   (the capture group does not affect the search)
  cat [RE.bol, ws0, strI "//", ws0, RE.eol]]

/-- `AI_TELLTALE_PATTERNS`, searched with `re.IGNORECASE`, source order. -/
def AI_TELLTALE_PATTERNS : List RE := [
  strI "certainly!",
  strI "sure!",
  strI "happy to help",
  cat [strI "here's ", altsI ["a", "an", "the", "how"]],
  cat [strI "i'll ", altsI ["help", "create", "implement", "fix", "add"]],
  cat [strI "let me ", altsI ["help", "create", "implement", "fix", "add", "know"]],
  strI "as an ai",
  strI "as a language model",
  cat [strI "i don't have ", alts [strI "access", strI "the ability"]]]

/-- `SUSPICIOUS_PATTERNS`, searched with `re.IGNORECASE`, source order. -/
def SUSPICIOUS_PATTERNS : List RE := [
  cat [strI "TODO:", ws0, altsI ["implement", "add", "fix"], ws1, strI "this"],
  cat [strI "FIXME:", ws0, altsI ["implement", "add", "fix"], ws1, strI "this"],
  cat [strI "//", ws0, strI "..."],
  strI "placeholder"]

/-! ## Stage 4.2: `remove_ai_lines` -/

/-- The inner pattern loop of `remove_ai_lines`: test the patterns in
order; the first match marks the line for removal, adds one to the
removed count and breaks. -/
def lineRemoveCheck : List RE → Text → Bool × Nat
  | [], _ => (false, 0)
  | p :: ps, line =>
    if reSearch p line then (true, 1) else lineRemoveCheck ps line

/-- The per-line loop: kept lines in order, plus the removed count. -/
def removeLines : List Text → List Text × Nat
  | [] => ([], 0)
  | l :: ls =>
    let rest := removeLines ls
    let chk := lineRemoveCheck AI_LINE_PATTERNS l
    if chk.1 then (rest.1, chk.2 + rest.2) else (l :: rest.1, chk.2 + rest.2)

/-- `CodeSanitizer.remove_ai_lines` (the `file_ext` argument is unused in
the source): split at newlines, drop each line whose first matching
pattern exists, rejoin; also return the number of removed lines, which
the source adds to `stats['lines_removed']`. -/
def remove_ai_lines (content : Text) : Text × Nat :=
  let r := removeLines (pySplitNL content)
  (joinNL r.1, r.2)

/-! ## Deterministic matchers for the substituted patterns

Each `re.sub`/`re.subn` pattern of the script is embedded as a hand
derived deterministic matcher: applied at a position, it returns
`some (replacement, remainder-after-the-match)` exactly when Python's
engine finds a match starting there, with the extent the greedy
backtracking search prefers.  The generic scanner `scanSub` then
reproduces `re.sub`'s leftmost scan, restarting after each replacement. -/

abbrev Matcher := Text → Option (Text × Text)

/-- `re.subn`'s scan: at each position try a match; on success emit the
replacement and continue after the matched span, otherwise keep one
character and advance.  Fuel `t.length` always suffices because every
pattern of the script consumes at least one character (the guard treats
a hypothetical zero-width match as a failure). -/
def scanSub (m : Matcher) : Nat → Text → Text × Nat
  | _, [] => ([], 0)
  | 0, t => (t, 0)
  | f+1, c :: rest =>
    match m (c :: rest) with
    | some (rep, rem) =>
      if rem.length < rest.length + 1 then
        let r := scanSub m f rem
        (rep ++ r.1, r.2 + 1)
      else
        let r := scanSub m f rest
        (c :: r.1, r.2)
    | none =>
      let r := scanSub m f rest
      (c :: r.1, r.2)

def subnM (m : Matcher) (c : Text) : Text × Nat := scanSub m c.length c

theorem subnM_def (m : Matcher) (c : Text) : subnM m c = scanSub m c.length c := rfl

/-- Case-sensitive literal: strip `p` from the front of `t`. -/
def stripLit : Text → Text → Option Text
  | [], t => some t
  | _ :: _, [] => none
  | c :: cs, d :: ds => if d = c then stripLit cs ds else none

/-- `(w1|w2|...)\s+` at the end of a pattern: try the alternatives in
order; each must be followed by at least one `\s`, which is then
consumed greedily together with the rest of its run. -/
def wordThenWs : List String → Text → Option Text
  | [], _ => none
  | w :: rest, t =>
    match stripLit (s2l w) t with
    | some (c :: t2) =>
      if isWs c then some (List.dropWhile isWs t2) else wordThenWs rest t
    | some [] => wordThenWs rest t
    | none => wordThenWs rest t

/-- `//\s*This\s+(function|method|variable|constant)\s+` ↦ `// `
(case-sensitive; the final `\s+` greedily eats the whole whitespace run,
newlines included). -/
def mRepl1 : Matcher
  | 47 :: 47 :: r =>
    match stripLit (s2l "This") (List.dropWhile isWs r) with
    | some (c :: r3) =>
      if isWs c then
        match wordThenWs ["function", "method", "variable", "constant"]
            (List.dropWhile isWs r3) with
        | some rem => some (s2l "// ", rem)
        | none => none
      else none
    | _ => none
  | _ => none

/-- `//\s*The\s+following\s+(code|section)\s+` ↦ `// `. -/
def mRepl2 : Matcher
  | 47 :: 47 :: r =>
    match stripLit (s2l "The") (List.dropWhile isWs r) with
    | some (c :: r3) =>
      if isWs c then
        match stripLit (s2l "following") (List.dropWhile isWs r3) with
        | some (c2 :: r4) =>
          if isWs c2 then
            match wordThenWs ["code", "section"] (List.dropWhile isWs r4) with
            | some rem => some (s2l "// ", rem)
            | none => none
          else none
        | _ => none
      else none
    | _ => none
  | _ => none

/-- `(//[^/\n]+)\.\s*$` ↦ `\1` under `re.MULTILINE`.  The viable dot is
the last non-whitespace character of the slash/newline-free run `R`
after `//` (greedy `[^/\n]+` with the all-`\s` condition forced by
`\s*$`); the trailing `\s*` then runs to the end of the string, or is
cut just before the last newline of the whitespace continuation. -/
def mRepl3 : Matcher
  | 47 :: 47 :: r =>
    let R := List.takeWhile (fun c => !(c == 47 || c == 10)) r
    let rest := List.drop R.length r
    match List.dropWhile isWs R.reverse with
    | 46 :: preRev =>
      if preRev = [] then none
      else
        let g := 47 :: 47 :: preRev.reverse
        match rest with
        | [] => some (g, [])
        | 10 :: _ =>
          let u := List.takeWhile isWs rest
          match List.drop u.length rest with
          | [] => some (g, [])
          | rest2 =>
            let tl := (List.takeWhile (fun c => !(c == 10)) u.reverse).reverse
            some (g, (10 :: tl) ++ rest2)
        | _ => none
    | _ => none
  | _ => none

/-- The emoji block `[\U0001F300-\U0001F9FF]` (code points 127744 to
129535). -/
def isEmoji (c : Nat) : Bool := 127744 ≤ c && c ≤ 129535

/-- Tail `\s*([E])+` of the emoji pattern: a whitespace run, then a
nonempty run of emojis, both consumed greedily. -/
def emojiTail (t : Text) : Option Text :=
  match List.dropWhile isWs t with
  | c :: rest => if isEmoji c then some (List.dropWhile isEmoji rest) else none
  | [] => none

/-- Rightmost split `L = pre ++ e :: _` with `e` an emoji whose tail
condition holds (greedy `[^\n]*` backtracks from the right). -/
def findE1 : Text → Text → Option (Text × Nat × Text)
  | [], _ => none
  | c :: rest, afterL =>
    match findE1 rest afterL with
    | some (pre, e, rem) => some (c :: pre, e, rem)
    | none =>
      if isEmoji c then
        match emojiTail (rest ++ afterL) with
        | some rem => some ([], c, rem)
        | none => none
      else none

/-- `(//\s*[^\n]*)([E])\s*([E])+` ↦ `\1\2`: keep everything up to the
rightmost emoji that is still followed (after whitespace) by another
emoji run, and drop that run. -/
def mRepl4 : Matcher
  | 47 :: 47 :: r =>
    let w := List.takeWhile isWs r
    let r1 := List.drop w.length r
    let L := List.takeWhile (fun c => !(c == 10)) r1
    match findE1 L (List.drop L.length r1) with
    | some (pre, e, rem) => some (47 :: 47 :: (w ++ pre ++ [e]), rem)
    | none => none
  | _ => none

/-- `AI_REPLACE_PATTERNS` as matchers with their replacements, source
order. -/
def AI_REPLACE_PATTERNS : List Matcher := [mRepl1, mRepl2, mRepl3, mRepl4]

/-- The loop of `CodeSanitizer.apply_replacements`: each `re.subn` runs
on the current content; the new content is kept only when the count is
positive (`re.subn` returns the input unchanged otherwise), and the
counts accumulate. -/
def applyLoop : List Matcher → Text → Nat → Text × Nat
  | [], c, acc => (c, acc)
  | m :: ms, c, acc =>
    let r := subnM m c
    applyLoop ms (if 0 < r.2 then r.1 else c) (acc + r.2)

/-- `CodeSanitizer.apply_replacements`: returns the new content and the
total count added to `stats['patterns_replaced']`. -/
def apply_replacements (c : Text) : Text × Nat := applyLoop AI_REPLACE_PATTERNS c 0

/-! ## Stage 4.4: `clean_empty_comment_blocks` -/

/-- The closing `/` of the block-comment pattern. -/
def closeSlash : Text → Option (Text × Text)
  | c :: rest => if c = 47 then some ([], rest) else none
  | [] => none

/-- `/\*+\s*\*+/` ↦ (empty): a slash, a star run, an optional
whitespace run, and either (no whitespace and at least two stars) or
(whitespace and a second star run), then the closing slash. -/
def mEmptyBlock : Matcher
  | [] => none
  | c :: r =>
    if c = 47 then
      let s1 := List.takeWhile (fun c => c == 42) r
      if s1.length = 0 then none
      else
        let r1 := List.drop s1.length r
        let sp := List.takeWhile isWs r1
        if sp.length = 0 then
          if 2 ≤ s1.length then closeSlash r1 else none
        else
          let r2 := List.drop sp.length r1
          let s2 := List.takeWhile (fun c => c == 42) r2
          if s2.length = 0 then none
          else closeSlash (List.drop s2.length r2)
    else none

def startsSlash2 : Text → Bool
  | c1 :: c2 :: _ => c1 == 47 && c2 == 47
  | _ => false

/-- One chained iteration of `(\n\s*//\s*)`: the previous iteration's
trailing `\s*` backtracks to just before the last newline of the
whitespace run, which must therefore contain a newline and be followed
directly by `//`. -/
def chainStep (t : Text) : Option Text :=
  let w := List.takeWhile isWs t
  let rest := List.drop w.length t
  if w.contains 10 && startsSlash2 rest then some (List.drop 2 rest) else none

/-- `(\n\s*//\s*){3,}` ↦ `\n`: Python's engine matches exactly three
iterations — the optional fourth would need a newline immediately after
the third iteration's fully greedy trailing `\s*`, which that run has
already consumed, and stopping is a success, so the star never
backtracks into it. -/
def mEmptyLineComments : Matcher
  | [] => none
  | c :: r =>
    if c = 10 then
      let r1 := List.dropWhile isWs r
      if startsSlash2 r1 then
        match chainStep (List.drop 2 r1) with
        | some t3 =>
          match chainStep t3 with
          | some t4 => some ([10], List.dropWhile isWs t4)
          | none => none
        | none => none
      else none
    else none

/-- `\n{4,}` ↦ `\n\n\n`: a maximal run of at least four newlines. -/
def mCollapseNL : Matcher
  | [] => none
  | c :: r =>
    if c = 10 then
      let k := List.takeWhile (fun c => c == 10) r
      if 3 ≤ k.length then some ([10, 10, 10], List.drop k.length r) else none
    else none

/-- `CodeSanitizer.clean_empty_comment_blocks`: the three `re.sub`s in
source order. -/
def clean_empty_comment_blocks (c : Text) : Text :=
  let c1 := (subnM mEmptyBlock c).1
  let c2 := (subnM mEmptyLineComments c1).1
  (subnM mCollapseNL c2).1

/-! ## Stage 4.5: `normalize_comment_style` -/

/-- `//([^\s/])` ↦ `// \1`. -/
def mSlashSpace : Matcher
  | 47 :: 47 :: c :: r =>
    if isWs c || c == 47 then none else some ([47, 47, 32, c], r)
  | _ => none

/-- `/\*\*\s+\*\s*@` ↦ `/** @`. -/
def mJsdoc : Matcher
  | 47 :: 42 :: 42 :: r =>
    let sp := List.takeWhile isWs r
    if sp.length = 0 then none
    else
      match List.drop sp.length r with
      | 42 :: r2 =>
        match List.dropWhile isWs r2 with
        | 64 :: r3 => some ([47, 42, 42, 32, 64], r3)
        | _ => none
      | _ => none
  | _ => none

/-- `# ([^\s#!])` ↦ `# \1` — note the pattern already requires the
space, so every replacement reproduces its own match. -/
def mHashSpace : Matcher
  | c1 :: c2 :: c :: r =>
    if c1 = 35 ∧ c2 = 32 ∧ !(isWs c || c == 35 || c == 33) then
      some ([35, 32, c], r)
    else none
  | _ => none

/-- `CodeSanitizer.normalize_comment_style`. -/
def normalize_comment_style (content : Text) (ext : String) : Text :=
  if ext = ".js" ∨ ext = ".jsx" ∨ ext = ".ts" ∨ ext = ".tsx" then
    let c1 := (subnM mSlashSpace content).1
    (subnM mJsdoc c1).1
  else if ext = ".py" then (subnM mHashSpace content).1
  else content

/-! ## Stage 4.6: `check_suspicious` -/

structure Finding where
  path : List String
  telltale : Bool
  idx : Nat
  count : Nat
deriving DecidableEq

/-- One `for pattern in ...: findall` loop of `check_suspicious`:
append a finding for each pattern with a positive match count. -/
def findingsAux (path : List String) (tell : Bool) (content : Text) :
    Nat → List RE → List Finding
  | _, [] => []
  | i, p :: ps =>
    let n := reCount p content
    let rest := findingsAux path tell content (i + 1) ps
    if 0 < n then ⟨path, tell, i, n⟩ :: rest else rest

/-- `CodeSanitizer.check_suspicious`: the suspicious patterns, then the
telltale patterns; read-only (returns only the findings appended to
`stats['suspicious_found']`). -/
def check_suspicious (content : Text) (path : List String) : List Finding :=
  findingsAux path false content 0 SUSPICIOUS_PATTERNS ++
    findingsAux path true content 0 AI_TELLTALE_PATTERNS

/-! ## Discovery and filtering (4.1) and the orchestrator (4.7)

Paths are segment lists (`pathlib.Path.parts`).  The file system is a
tree of directories (name, subdirectories, file names) plus a disk
function from paths to optional contents, where `none` models an
unreadable file; a write-success oracle models writable versus
unwritable paths.  Console prints are not modelled, except that
error-logged paths are collected in `log`. -/

def CODE_EXTENSIONS : List String :=
  [".js", ".jsx", ".ts", ".tsx", ".py", ".css", ".scss",
   ".html", ".md", ".yaml", ".yml", ".sh"]

def SKIP_DIRS : List String :=
  ["node_modules", ".git", "dist", "build", ".next",
   "__pycache__", ".venv", "venv", "coverage", ".nyc_output"]

/-- `pathlib`'s `Path.suffix` on a file name: from the last dot, empty
when the dot is missing, leading or trailing. -/
def pySuffix (name : String) : String :=
  let cs := name.toList
  let tl := cs.reverse.takeWhile (fun c => c ≠ '.')
  if tl.length = cs.length then ""
  else if tl.length + 1 = cs.length then ""
  else if tl.length = 0 then ""
  else String.mk ('.' :: tl.reverse)

/-- `str.lower()` on the ASCII range (the allow-set is ASCII). -/
def lowerStr (s : String) : String :=
  String.mk (s.toList.map fun c =>
    if 'A' ≤ c ∧ c ≤ 'Z' then Char.ofNat (c.toNat + 32) else c)

def lastSeg (p : List String) : String := p.getLast?.getD ""

/-- `Path(file_path).suffix.lower()`. -/
def pathExt (p : List String) : String := lowerStr (pySuffix (lastSeg p))

/-- `CodeSanitizer.should_process_file`: the extension check, then the
path-segment check against the skip set. -/
def should_process_file (p : List String) : Bool :=
  if !(CODE_EXTENSIONS.contains (pathExt p)) then false
  else if p.any (fun part => SKIP_DIRS.contains part) then false
  else true

/-- A directory: name, subdirectories, file names. -/
inductive Tree where
  | node : String → List Tree → List String → Tree

def Tree.dirName : Tree → String
  | .node n _ _ => n

mutual
/-- `os.walk(root)` with the in-place pruning
`dirs[:] = [d for d in dirs if d not in SKIP_DIRS]` and the inner file
loop of `CodeSanitizer.run`: the file paths visited, top-down, the
current directory's files before its surviving subdirectories. -/
def walk : List String → Tree → List (List String)
  | pre, .node name subs files =>
    let p := pre ++ [name]
    files.map (fun f => p ++ [f]) ++ walkList p subs
def walkList : List String → List Tree → List (List String)
  | _, [] => []
  | p, t :: ts =>
    (if SKIP_DIRS.contains t.dirName then [] else walk p t) ++ walkList p ts
end

structure Stats where
  processed : Nat
  modified : Nat
  linesRemoved : Nat
  patternsReplaced : Nat
  findings : List Finding

structure RunState where
  stats : Stats
  disk : List String → Option Text
  log : List (List String)
  writes : List (List String)

/-- The per-file transformation of `CodeSanitizer.process_file`: JSON
files skip stages 4.2–4.5; everything else runs them in source order.
Returns the new content with the removed-line and replacement counts. -/
def transformContent (ext : String) (c : Text) : Text × Nat × Nat :=
  if ext ≠ ".json" then
    let r1 := remove_ai_lines c
    let r2 := apply_replacements r1.1
    let c3 := clean_empty_comment_blocks r2.1
    let c4 := normalize_comment_style c3 ext
    (c4, r1.2, r2.2)
  else (c, 0, 0)

/-- `CodeSanitizer.process_file`: read (a `none` disk entry is an
unreadable file: log and skip), transform, scan for suspicious
patterns, then write only when the content changed and not in dry-run;
a failed write (oracle `wok`) is logged and leaves the modified counter
untouched.  Returns the `modified` flag and the new state. -/
def process_file (dry : Bool) (wok : List String → Bool) (p : List String)
    (s : RunState) : Bool × RunState :=
  match s.disk p with
  | none => (false, { s with log := s.log ++ [p] })
  | some orig =>
    let tr := transformContent (pathExt p) orig
    let s1 := { s with stats := { s.stats with
      linesRemoved := s.stats.linesRemoved + tr.2.1,
      patternsReplaced := s.stats.patternsReplaced + tr.2.2,
      findings := s.stats.findings ++ check_suspicious tr.1 p } }
    if tr.1 ≠ orig then
      if !dry then
        let s2 := { s1 with writes := s1.writes ++ [p] }
        if wok p then
          (true, { s2 with
            disk := fun q => if q = p then some tr.1 else s2.disk q,
            stats := { s2.stats with modified := s2.stats.modified + 1 } })
        else (false, { s2 with log := s2.log ++ [p] })
      else (true, { s1 with stats := { s1.stats with modified := s1.stats.modified + 1 } })
    else (false, s1)

/-- The body of `CodeSanitizer.run`'s file loop: gate on
`should_process_file`, count the file as processed, then process it. -/
def runStep (dry : Bool) (wok : List String → Bool) (s : RunState)
    (p : List String) : RunState :=
  if should_process_file p then
    (process_file dry wok p
      { s with stats := { s.stats with processed := s.stats.processed + 1 } }).2
  else s

def runList (dry : Bool) (wok : List String → Bool)
    (ps : List (List String)) (s : RunState) : RunState :=
  ps.foldl (runStep dry wok) s

def initState (d0 : List String → Option Text) : RunState :=
  { stats := ⟨0, 0, 0, 0, []⟩, disk := d0, log := [], writes := [] }

/-- `CodeSanitizer.run`: walk the tree rooted at `t` (whose parent path
is `pre`), process every candidate, and return the final state — whose
statistics the script then prints as the report. -/
def runS (dry : Bool) (wok : List String → Bool) (pre : List String)
    (t : Tree) (d0 : List String → Option Text) : RunState :=
  runList dry wok (walk pre t) (initState d0)

/-! ## Theorems -/

/-- A line matches some line-removal pattern. -/
def lineMatchesAny (l : Text) : Bool :=
  AI_LINE_PATTERNS.any (fun p => reSearch p l)

theorem lineRemoveCheck_eq (ps : List RE) (l : Text) :
    lineRemoveCheck ps l =
      (ps.any (fun p => reSearch p l),
       if ps.any (fun p => reSearch p l) then 1 else 0) := by
  induction ps with
  | nil => rfl
  | cons p ps ih =>
    show (if reSearch p l then (true, 1) else lineRemoveCheck ps l) = _
    by_cases h : reSearch p l
    · simp [h]
    · simp only [Bool.not_eq_true] at h
      simp [h, ih]

theorem removeLines_eq (ls : List Text) :
    removeLines ls =
      (ls.filter (fun l => !(lineMatchesAny l)),
       (ls.filter (fun l => lineMatchesAny l)).length) := by
  induction ls with
  | nil => rfl
  | cons l ls ih =>
    show (let rest := removeLines ls
          let chk := lineRemoveCheck AI_LINE_PATTERNS l
          if chk.1 then (rest.1, chk.2 + rest.2) else (l :: rest.1, chk.2 + rest.2)) = _
    rw [lineRemoveCheck_eq, ih]
    simp only [lineMatchesAny]
    by_cases h : (AI_LINE_PATTERNS.any fun p => reSearch p l) = true
    · simp [h, List.filter_cons, Nat.add_comm]
    · have h' : (AI_LINE_PATTERNS.any fun p => reSearch p l) = false :=
        Bool.eq_false_iff.mpr h
      simp [h', List.filter_cons]

/-- C3.  In `remove_ai_lines`, the patterns are tested per line in their
listed order and the first match removes the whole line, contributing
exactly one to the removed count no matter how many patterns would
match; the kept lines are exactly the lines matching no pattern,
verbatim and in order.  Hence the result is the newline-join of the
non-matching lines, and the count is the number of matching lines. -/
theorem C3_line_removal_first_match (content : Text) :
    remove_ai_lines content =
      (joinNL ((pySplitNL content).filter (fun l => !(lineMatchesAny l))),
       ((pySplitNL content).filter (fun l => lineMatchesAny l)).length) ∧
    ∀ line : Text,
      lineRemoveCheck AI_LINE_PATTERNS line =
        (lineMatchesAny line, if lineMatchesAny line then 1 else 0) := by
  constructor
  · show (let r := removeLines (pySplitNL content); (joinNL r.1, r.2)) = _
    rw [removeLines_eq]
  · intro line
    exact lineRemoveCheck_eq AI_LINE_PATTERNS line

theorem removeLines_all_kept (ls : List Text)
    (h : ∀ l ∈ ls, lineMatchesAny l = false) : removeLines ls = (ls, 0) := by
  rw [removeLines_eq]
  have h1 : ls.filter (fun l => !(lineMatchesAny l)) = ls :=
    List.filter_eq_self.mpr (by intro l hl; rw [h l hl]; rfl)
  have h2 : ls.filter (fun l => lineMatchesAny l) = [] :=
    List.filter_eq_nil_iff.mpr (by intro l hl; simp [h l hl])
  rw [h1, h2]
  rfl

theorem emptyLine_not_matched : lineMatchesAny [] = false := by decide

/-- C9.  `remove_ai_lines` is idempotent: a second pass over its output
removes nothing — it returns the same text with a removed count of 0
(so the two-pass total equals the one-pass total). -/
theorem C9_line_removal_idempotent (content : Text) :
    remove_ai_lines (remove_ai_lines content).1 =
      ((remove_ai_lines content).1, 0) := by
  have hsplit := removeLines_eq (pySplitNL content)
  set kept := (pySplitNL content).filter (fun l => !(lineMatchesAny l)) with hkept
  have hout : (remove_ai_lines content).1 = joinNL kept := by
    show (let r := removeLines (pySplitNL content); (joinNL r.1, r.2)).1 = _
    rw [hsplit]
  have hkeptmem : ∀ l ∈ kept, lineMatchesAny l = false := by
    intro l hl
    have := List.of_mem_filter hl
    simpa using this
  rw [hout]
  cases hk : kept with
  | nil =>
    show (let r := removeLines (pySplitNL (joinNL [])); (joinNL r.1, r.2)) = _
    have : pySplitNL (joinNL ([] : List Text)) = [[]] := rfl
    rw [this]
    rw [removeLines_all_kept [[]] (by intro l hl; simp at hl; rw [hl]; exact emptyLine_not_matched)]
    rfl
  | cons k ks =>
    have hne : kept ≠ [] := by rw [hk]; simp
    have hnl : ∀ l ∈ kept, (10 : Nat) ∉ l := by
      intro l hl
      exact pySplitNL_no_newline content l (List.mem_of_mem_filter (hkept ▸ hl))
    rw [← hk]
    show (let r := removeLines (pySplitNL (joinNL kept)); (joinNL r.1, r.2)) = _
    rw [pySplitNL_joinNL kept hne hnl, removeLines_all_kept kept hkeptmem]

/-- Spec-side chain (4.3): each rule operates on the output of the
previous rule, in listed order. -/
def replChainSpec : List Matcher → Text → Text
  | [], c => c
  | m :: ms, c => replChainSpec ms (subnM m c).1

/-- Spec-side count (4.3): the replacements actually performed by each
rule along that chain, summed in order. -/
def replCountSpec : List Matcher → Text → Nat
  | [], _ => 0
  | m :: ms, c => (subnM m c).2 + replCountSpec ms (subnM m c).1

/-- A scan that performed no replacement returns its input unchanged
(the embedding's counterpart of `re.subn` returning the original string
with count 0). -/
theorem scanSub_zero_eq (m : Matcher) :
    ∀ (f : Nat) (t out : Text), scanSub m f t = (out, 0) → out = t := by
  intro f
  induction f with
  | zero =>
    intro t out h
    cases t with
    | nil => simpa [scanSub] using congrArg Prod.fst h.symm
    | cons c r => simpa [scanSub] using congrArg Prod.fst h.symm
  | succ f ih =>
    intro t out h
    cases t with
    | nil => simpa [scanSub] using congrArg Prod.fst h.symm
    | cons c rest =>
      rw [scanSub] at h
      cases hm : m (c :: rest) with
      | some pr =>
        rw [hm] at h
        by_cases hg : pr.2.length < rest.length + 1
        · simp only [hg, if_true] at h
          have := congrArg Prod.snd h
          simp at this
        · simp only [hg, if_false] at h
          have h1 := congrArg Prod.fst h
          have h2 := congrArg Prod.snd h
          simp at h1 h2
          rw [← h1, ih rest (scanSub m f rest).1
            (by rw [Prod.ext_iff]; exact ⟨rfl, h2⟩)]
      | none =>
        rw [hm] at h
        have h1 := congrArg Prod.fst h
        have h2 := congrArg Prod.snd h
        simp at h1 h2
        rw [← h1, ih rest (scanSub m f rest).1
          (by rw [Prod.ext_iff]; exact ⟨rfl, h2⟩)]

theorem applyLoop_eq (ms : List Matcher) :
    ∀ (c : Text) (acc : Nat),
      applyLoop ms c acc = (replChainSpec ms c, acc + replCountSpec ms c) := by
  induction ms with
  | nil => intro c acc; simp [applyLoop, replChainSpec, replCountSpec]
  | cons m ms ih =>
    intro c acc
    show (let r := subnM m c
          applyLoop ms (if 0 < r.2 then r.1 else c) (acc + r.2)) = _
    by_cases h : 0 < (subnM m c).2
    · simp only [h, if_true]
      rw [ih]
      show (replChainSpec ms (subnM m c).1, _) = (replChainSpec ms (subnM m c).1, _)
      rw [Prod.ext_iff]
      exact ⟨rfl, by show _ = acc + ((subnM m c).2 + _); omega⟩
    · simp only [h, if_false]
      have h0 : (subnM m c).2 = 0 := by omega
      have hc : (subnM m c).1 = c := scanSub_zero_eq m c.length c (subnM m c).1
        (by rw [Prod.ext_iff]; exact ⟨rfl, h0⟩)
      rw [ih]
      show _ = (replChainSpec ms (subnM m c).1, acc + ((subnM m c).2 + replCountSpec ms (subnM m c).1))
      rw [hc, h0, Prod.ext_iff]
      exact ⟨rfl, by omega⟩

/-- C4.  `apply_replacements` returns exactly the text obtained by
running the replacement rules sequentially in listed order, each on the
output of the previous one, and its count is the sum of the
replacements each rule actually performed along that chain. -/
theorem C4_replacement_count_additive (c : Text) :
    apply_replacements c =
      (replChainSpec AI_REPLACE_PATTERNS c, replCountSpec AI_REPLACE_PATTERNS c) := by
  show applyLoop AI_REPLACE_PATTERNS c 0 = _
  rw [applyLoop_eq]
  simp

/-- C10.  For JavaScript-family files the space-after-`//` rewrite of
`normalize_comment_style` applies to every occurrence of `//` followed
by a non-space, non-slash character anywhere in the text, comments or
not: it rewrites `https://example.com` (a string with no comment at
all) to `https:// example.com`, and both occurrences in `a//b c//d`. -/
theorem C10_slash_space_rewrites_noncomment_text :
    normalize_comment_style (s2l "https://example.com") ".js" =
      s2l "https:// example.com" ∧
    normalize_comment_style (s2l "a//b c//d") ".js" = s2l "a// b c// d" :=
  ⟨by decide, by decide⟩

/-- A scan whose matcher always reproduces its own match leaves the
text unchanged. -/
theorem scanSub_self_replacing (m : Matcher)
    (hm : ∀ t rep rem, m t = some (rep, rem) → rep ++ rem = t) :
    ∀ (f : Nat) (t : Text), (scanSub m f t).1 = t := by
  intro f
  induction f with
  | zero => intro t; cases t <;> rfl
  | succ f ih =>
    intro t
    cases t with
    | nil => rfl
    | cons c rest =>
      rw [scanSub]
      cases hmr : m (c :: rest) with
      | some pr =>
        by_cases hg : pr.2.length < rest.length + 1
        · simp only [hg, if_true]
          show pr.1 ++ (scanSub m f pr.2).1 = c :: rest
          rw [ih pr.2]
          exact hm _ pr.1 pr.2 (by rw [hmr])
        · simp only [hg, if_false]
          show c :: (scanSub m f rest).1 = c :: rest
          rw [ih rest]
      | none =>
        show c :: (scanSub m f rest).1 = c :: rest
        rw [ih rest]

theorem mHashSpace_self_replacing (t rep rem : Text)
    (h : mHashSpace t = some (rep, rem)) : rep ++ rem = t := by
  match t with
  | [] => exact absurd h (by simp [mHashSpace])
  | [c1] => exact absurd h (by simp [mHashSpace])
  | [c1, c2] => exact absurd h (by simp [mHashSpace])
  | c1 :: c2 :: c3 :: r =>
    simp only [mHashSpace] at h
    split at h
    · simp only [Option.some.injEq, Prod.mk.injEq] at h
      rename_i hcond
      rw [← h.1, ← h.2, hcond.1, hcond.2.1]
      rfl
    · exact absurd h (by simp)

/-- C7 (code bug).  The spec's comment-normalization contract — a line
comment whose marker is immediately followed by a non-space character
gains exactly one space — fails for the recognized `.py` family: the
source pattern `'# ([^\s#!])'` already requires the space and replaces
each match with itself, so the stage never changes any Python file; in
particular `#foo` stays `#foo` instead of becoming `# foo`.  This
contradicts the code's own comment (`Ensure space after #`). -/
theorem C7_py_normalization_is_noop :
    (∀ t : Text, normalize_comment_style t ".py" = t) ∧
    normalize_comment_style (s2l "#foo") ".py" = s2l "#foo" := by
  constructor
  · intro t
    show (subnM mHashSpace t).1 = t
    exact scanSub_self_replacing mHashSpace
      (fun t' rep rem h => mHashSpace_self_replacing t' rep rem h) t.length t
  · decide

theorem scanSub_nil (m : Matcher) (f : Nat) : scanSub m f [] = ([], 0) := by
  cases f <;> rfl

/-- With enough fuel the scan does not depend on the exact fuel value. -/
theorem scanSub_fuel (m : Matcher) :
    ∀ (n : Nat) (t : Text), t.length ≤ n → ∀ f g, t.length ≤ f → t.length ≤ g →
      scanSub m f t = scanSub m g t := by
  intro n
  induction n with
  | zero =>
    intro t ht f g _ _
    have : t = [] := List.length_eq_zero.mp (Nat.le_zero.mp ht)
    subst this
    rw [scanSub_nil, scanSub_nil]
  | succ n ih =>
    intro t ht f g hf hg
    cases t with
    | nil => rw [scanSub_nil, scanSub_nil]
    | cons c rest =>
      simp only [List.length_cons] at ht hf hg
      cases f with
      | zero => omega
      | succ f' =>
        cases g with
        | zero => omega
        | succ g' =>
          rw [scanSub, scanSub]
          cases hm : m (c :: rest) with
          | some pr =>
            by_cases hgd : pr.2.length < rest.length + 1
            · simp only [hgd, if_true]
              rw [ih pr.2 (by omega) f' g' (by omega) (by omega)]
            · simp only [hgd, if_false]
              rw [ih rest (by omega) f' g' (by omega) (by omega)]
          | none =>
            rw [ih rest (by omega) f' g' (by omega) (by omega)]

/-- The scan walks over a prefix on which the matcher can never fire. -/
theorem scanSub_skip (m : Matcher) :
    ∀ (a t : Text) (f : Nat), (∀ c r, c ∈ a → m (c :: r) = none) →
      a.length + t.length ≤ f →
      scanSub m f (a ++ t) =
        (a ++ (scanSub m t.length t).1, (scanSub m t.length t).2) := by
  intro a
  induction a with
  | nil =>
    intro t f _ hf
    rw [List.nil_append, List.nil_append,
      scanSub_fuel m t.length t le_rfl f t.length (by omega) le_rfl]
  | cons c a' ih =>
    intro t f hm hf
    cases f with
    | zero => simp at hf
    | succ f' =>
      show scanSub m (f' + 1) (c :: (a' ++ t)) = _
      rw [scanSub, hm c (a' ++ t) (List.mem_cons_self _ _),
        ih t f' (fun c2 r hc2 => hm c2 r (List.mem_cons_of_mem _ hc2))
          (by simp at hf ⊢; omega)]
      rfl

/-- The scan of a matcher that fires only in the presence of `/` is the
identity on slash-free text. -/
theorem scanSub_id_no47 (m : Matcher)
    (hm : ∀ s : Text, (47 : Nat) ∉ s → m s = none) :
    ∀ (f : Nat) (t : Text), (47 : Nat) ∉ t → scanSub m f t = (t, 0) := by
  intro f
  induction f with
  | zero => intro t _; cases t <;> rfl
  | succ f ih =>
    intro t h47
    cases t with
    | nil => rfl
    | cons c rest =>
      rw [scanSub, hm (c :: rest) h47,
        ih rest (fun hmem => h47 (List.mem_cons_of_mem _ hmem))]

theorem mEmptyBlock_none_no47 (s : Text) (h : (47 : Nat) ∉ s) :
    mEmptyBlock s = none := by
  cases s with
  | nil => rfl
  | cons c r =>
    have hc : ¬(c = 47) := fun hh => h (by rw [hh]; exact List.mem_cons_self _ _)
    simp [mEmptyBlock, hc]

theorem startsSlash2_false_no47 (t : Text) (h : (47 : Nat) ∉ t) :
    startsSlash2 t = false := by
  match t with
  | [] => rfl
  | [c] => rfl
  | c1 :: c2 :: r =>
    have hc : ¬(c1 = 47) := fun hh => h (by rw [hh]; exact List.mem_cons_self _ _)
    simp [startsSlash2, hc]

theorem mEmptyLineComments_none_no47 (s : Text) (h : (47 : Nat) ∉ s) :
    mEmptyLineComments s = none := by
  cases s with
  | nil => rfl
  | cons c r =>
    have hr : (47 : Nat) ∉ r := fun hmem => h (List.mem_cons_of_mem _ hmem)
    have hdw : (47 : Nat) ∉ List.dropWhile isWs r :=
      fun hmem => hr ((List.dropWhile_sublist isWs).subset hmem)
    by_cases hc : c = 10
    · simp [mEmptyLineComments, hc, startsSlash2_false_no47 _ hdw]
    · simp [mEmptyLineComments, hc]

theorem mCollapseNL_cons_ne (c : Nat) (r : Text) (hc : c ≠ 10) :
    mCollapseNL (c :: r) = none := by
  simp [mCollapseNL, hc]

theorem takeWhile10_rep_append (k : Nat) (b : Text) (hb : (10 : Nat) ∉ b) :
    List.takeWhile (fun c => c == 10) (List.replicate k 10 ++ b) =
      List.replicate k 10 := by
  induction k with
  | zero =>
    cases b with
    | nil => rfl
    | cons c r =>
      have hc : ¬(c = 10) := fun hh => hb (by rw [hh]; exact List.mem_cons_self _ _)
      simp [List.takeWhile_cons, hc]
  | succ k ih =>
    rw [List.replicate_succ, List.cons_append, List.takeWhile_cons]
    simp only [beq_self_eq_true, if_true]
    rw [ih]

/-- Unfolding of the collapse matcher at a newline head. -/
theorem mCollapseNL_cons10 (r : Text) :
    mCollapseNL (10 :: r) =
      (if 3 ≤ (List.takeWhile (fun c => c == 10) r).length
       then some ([10, 10, 10],
         List.drop (List.takeWhile (fun c => c == 10) r).length r)
       else none) := by
  simp [mCollapseNL]

/-- The collapse scan is the identity on newline-free text. -/
theorem collapse_id (b : Text) (hb : (10 : Nat) ∉ b) (f : Nat)
    (hf : b.length ≤ f) : scanSub mCollapseNL f b = (b, 0) := by
  have hskip := scanSub_skip mCollapseNL b [] f
    (fun c r hc => mCollapseNL_cons_ne c r (fun hh => hb (hh ▸ hc)))
    (by simp; omega)
  rw [scanSub_nil] at hskip
  simpa using hskip

/-- Small newline runs (fewer than four) pass through the collapse scan
unchanged. -/
theorem collapse_small (b : Text) (hb : (10 : Nat) ∉ b) :
    ∀ (n : Nat), n ≤ 3 → ∀ f, n + b.length ≤ f →
      scanSub mCollapseNL f (List.replicate n 10 ++ b) =
        (List.replicate n 10 ++ b, 0) := by
  intro n
  induction n with
  | zero =>
    intro _ f hf
    simpa using collapse_id b hb f (by omega)
  | succ n ih =>
    intro hn f hf
    cases f with
    | zero => omega
    | succ f' =>
      rw [List.replicate_succ, List.cons_append, scanSub]
      have hmc : mCollapseNL (10 :: (List.replicate n 10 ++ b)) = none := by
        rw [mCollapseNL_cons10, takeWhile10_rep_append n b hb,
          List.length_replicate, if_neg (by omega : ¬ 3 ≤ n)]
      rw [hmc, ih (by omega) f' (by omega)]

/-- A maximal newline run of length at least four collapses to exactly
three newlines (one replacement). -/
theorem collapse_large (b : Text) (hb : (10 : Nat) ∉ b) (n : Nat) (hn : 4 ≤ n) :
    ∀ f, n + b.length ≤ f →
      scanSub mCollapseNL f (List.replicate n 10 ++ b) =
        ([10, 10, 10] ++ b, 1) := by
  intro f hf
  cases f with
  | zero => omega
  | succ f' =>
    obtain ⟨n', rfl⟩ : ∃ n', n = n' + 1 := ⟨n - 1, by omega⟩
    rw [List.replicate_succ, List.cons_append, scanSub]
    have hdrop : List.drop (List.takeWhile (fun c => c == 10)
        (List.replicate n' 10 ++ b)).length (List.replicate n' 10 ++ b) = b := by
      rw [takeWhile10_rep_append n' b hb]
      simp [List.drop_left (List.replicate n' 10) b]
    have hmc : mCollapseNL (10 :: (List.replicate n' 10 ++ b)) =
        some ([10, 10, 10], b) := by
      rw [mCollapseNL_cons10, hdrop, if_pos]
      rw [takeWhile10_rep_append n' b hb, List.length_replicate]
      omega
    rw [hmc]
    have hguard : b.length < (List.replicate n' 10 ++ b).length + 1 := by
      simp
      omega
    simp only [hguard, if_true]
    rw [collapse_id b hb f' (by omega)]

/-- C8 counterexample.  `"a\n\n\n\nb"` contains a run of three blank
lines — fewer than the four the claim says are required — yet the stage
changes it (to two blank lines), because the source collapses runs of
four or more newline characters, i.e. three or more blank lines. -/
theorem C8_counterexample :
    clean_empty_comment_blocks (s2l "a\n\n\n\nb") = s2l "a\n\n\nb" ∧
    s2l "a\n\n\n\nb" ≠ s2l "a\n\n\nb" :=
  ⟨by decide, by decide⟩

/-- C8 as amended.  In slash-free surroundings (so that the two earlier
substitutions of the stage cannot fire), a maximal run of `n` newline
characters — `n - 1` blank lines — collapses to exactly three newlines
(two blank lines) when `n ≥ 4` (three or more blank lines), and is
unchanged when `n < 4`. -/
theorem C8_blank_line_collapse (a b : Text) (n : Nat)
    (ha10 : (10 : Nat) ∉ a) (hb10 : (10 : Nat) ∉ b)
    (ha47 : (47 : Nat) ∉ a) (hb47 : (47 : Nat) ∉ b) :
    clean_empty_comment_blocks (a ++ List.replicate n 10 ++ b) =
      a ++ List.replicate (if 4 ≤ n then 3 else n) 10 ++ b := by
  have h47 : (47 : Nat) ∉ a ++ List.replicate n 10 ++ b := by
    intro hmem
    rcases List.mem_append.mp hmem with h1 | h1
    · rcases List.mem_append.mp h1 with h2 | h2
      · exact ha47 h2
      · have := List.eq_of_mem_replicate h2; omega
    · exact hb47 h1
  have hid1 : subnM mEmptyBlock (a ++ List.replicate n 10 ++ b) =
      (a ++ List.replicate n 10 ++ b, 0) :=
    scanSub_id_no47 mEmptyBlock mEmptyBlock_none_no47 _ _ h47
  have hid2 : subnM mEmptyLineComments (a ++ List.replicate n 10 ++ b) =
      (a ++ List.replicate n 10 ++ b, 0) :=
    scanSub_id_no47 mEmptyLineComments mEmptyLineComments_none_no47 _ _ h47
  show (subnM mCollapseNL
      (subnM mEmptyLineComments (subnM mEmptyBlock _).1).1).1 = _
  rw [hid1]
  show (subnM mCollapseNL
      (subnM mEmptyLineComments (a ++ List.replicate n 10 ++ b)).1).1 = _
  rw [hid2, show ((a ++ List.replicate n 10 ++ b, (0 : Nat))).1 =
    a ++ List.replicate n 10 ++ b from rfl]
  rw [subnM_def]
  rw [List.append_assoc a (List.replicate n 10) b]
  rw [scanSub_skip mCollapseNL a (List.replicate n 10 ++ b) _
    (fun c r hc => mCollapseNL_cons_ne c r (fun hh => ha10 (hh ▸ hc)))
    (by simp)]
  show a ++ (scanSub mCollapseNL (List.replicate n 10 ++ b).length
      (List.replicate n 10 ++ b)).1 = _
  by_cases hn : 4 ≤ n
  · rw [collapse_large b hb10 n hn _ (by simp), if_pos hn,
      List.append_assoc a (List.replicate 3 10) b]
    rfl
  · rw [collapse_small b hb10 n (by omega) _ (by simp), if_neg hn,
      List.append_assoc a (List.replicate n 10) b]

theorem C8_blank_line_collapse_witness :
    clean_empty_comment_blocks (s2l "a" ++ List.replicate 6 10 ++ s2l "b") =
      s2l "a" ++ List.replicate 3 10 ++ s2l "b" := by
  have h := C8_blank_line_collapse (s2l "a") (s2l "b") 6
    (by decide) (by decide) (by decide) (by decide)
  simpa using h

/-! ### Discovery and filtering: C2 -/

theorem walkList_mem :
    ∀ (ts : List Tree) (pre q : List String),
      q ∈ walkList pre ts →
      ∃ t ∈ ts, SKIP_DIRS.contains t.dirName = false ∧ q ∈ walk pre t := by
  intro ts
  induction ts with
  | nil => intro pre q hq; simp [walkList] at hq
  | cons t ts ih =>
    intro pre q hq
    rw [walkList] at hq
    rcases List.mem_append.mp hq with h1 | h1
    · by_cases hs : SKIP_DIRS.contains t.dirName
      · rw [if_pos hs] at h1; simp at h1
      · refine ⟨t, List.mem_cons_self _ _, by simpa using hs, ?_⟩
        rwa [if_neg hs] at h1
    · obtain ⟨t', ht', hs, hw⟩ := ih pre q h1
      exact ⟨t', List.mem_cons_of_mem _ ht', hs, hw⟩

/-- Every path produced by the pruned walk consists of the parent
prefix, the root's own name, a chain of surviving (non-skipped)
directory names, and a file name. -/
theorem walk_shape :
    ∀ (n : Nat) (t : Tree), sizeOf t ≤ n →
      ∀ (pre p : List String), p ∈ walk pre t →
        ∃ mid f, p = pre ++ t.dirName :: (mid ++ [f]) ∧
          ∀ d ∈ mid, SKIP_DIRS.contains d = false := by
  intro n
  induction n with
  | zero =>
    intro t hst
    cases t with
    | node name subs files =>
      simp [Tree.node.sizeOf_spec] at hst
  | succ n ih =>
    intro t hst pre p hp
    cases t with
    | node name subs files =>
      rw [walk] at hp
      rcases List.mem_append.mp hp with h1 | h1
      · obtain ⟨f, _, hpe⟩ := List.mem_map.mp h1
        refine ⟨[], f, ?_, by simp⟩
        rw [← hpe]
        simp [Tree.dirName]
      · obtain ⟨t', ht', hs, hw⟩ := walkList_mem subs (pre ++ [name]) p h1
        have hsize : sizeOf t' < sizeOf (Tree.node name subs files) := by
          have hlt := List.sizeOf_lt_of_mem ht'
          simp [Tree.node.sizeOf_spec]
          omega
        obtain ⟨mid, f, hpe, hmid⟩ := ih t' (by omega) (pre ++ [name]) p hw
        refine ⟨t'.dirName :: mid, f, ?_, ?_⟩
        · rw [hpe]
          simp [Tree.dirName, List.append_assoc]
        · intro d hd
          rcases List.mem_cons.mp hd with h | h
          · rw [h]; exact hs
          · exact hmid d h

theorem should_process_file_spec (p : List String)
    (h : should_process_file p = true) :
    CODE_EXTENSIONS.contains (pathExt p) = true ∧
      ∀ seg ∈ p, SKIP_DIRS.contains seg = false := by
  unfold should_process_file at h
  by_cases h1 : CODE_EXTENSIONS.contains (pathExt p)
  · refine ⟨h1, ?_⟩
    intro seg hseg
    rw [if_neg (by rw [h1]; simp)] at h
    by_cases h2 : p.any (fun part => SKIP_DIRS.contains part)
    · rw [if_pos h2] at h; cases h
    · by_cases h3 : SKIP_DIRS.contains seg
      · exact absurd (List.any_eq_true.mpr ⟨seg, hseg, h3⟩) h2
      · simpa using h3
  · rw [if_pos (by rw [Bool.eq_false_iff.mpr h1]; rfl)] at h; cases h

theorem process_file_none (dry : Bool) (wok : List String → Bool)
    (p : List String) (s : RunState) (h : s.disk p = none) :
    process_file dry wok p s = (false, { s with log := s.log ++ [p] }) := by
  unfold process_file
  rw [h]

theorem process_file_writes (dry : Bool) (wok : List String → Bool)
    (p : List String) (s : RunState) :
    (process_file dry wok p s).2.writes = s.writes ∨
    (process_file dry wok p s).2.writes = s.writes ++ [p] := by
  unfold process_file
  cases h : s.disk p with
  | none => left; rfl
  | some orig =>
    simp only
    split
    · split
      · split
        · right; rfl
        · right; rfl
      · left; rfl
    · left; rfl

theorem runStep_writes (dry : Bool) (wok : List String → Bool)
    (s : RunState) (p : List String) (q : List String)
    (hq : q ∈ (runStep dry wok s p).writes) :
    q ∈ s.writes ∨ (q = p ∧ should_process_file p = true) := by
  unfold runStep at hq
  by_cases hg : should_process_file p
  · rw [if_pos hg] at hq
    rcases process_file_writes dry wok p
      { s with stats := { s.stats with processed := s.stats.processed + 1 } } with h | h
    · rw [h] at hq; exact Or.inl hq
    · rw [h] at hq
      rcases List.mem_append.mp hq with h1 | h1
      · exact Or.inl h1
      · simp at h1
        exact Or.inr ⟨h1, hg⟩
  · rw [if_neg hg] at hq
    exact Or.inl hq

theorem runList_writes (dry : Bool) (wok : List String → Bool) :
    ∀ (l : List (List String)) (s : RunState) (q : List String),
      q ∈ (runList dry wok l s).writes →
      q ∈ s.writes ∨ (q ∈ l ∧ should_process_file q = true) := by
  intro l
  induction l with
  | nil => intro s q hq; exact Or.inl hq
  | cons p l ih =>
    intro s q hq
    rcases ih (runStep dry wok s p) q hq with h1 | h1
    · rcases runStep_writes dry wok s p q h1 with h2 | h2
      · exact Or.inl h2
      · exact Or.inr ⟨h2.1 ▸ List.mem_cons_self _ _, h2.1 ▸ h2.2⟩
    · exact Or.inr ⟨List.mem_cons_of_mem _ h1.1, h1.2⟩

/-- C2.  (a) A path is opened for writing during a run only if it was
enumerated by the walk and passed `should_process_file`; (b) passing
`should_process_file` means the lower-cased extension is in the fixed
allow-set and no path segment equals a skip-directory name; (c) the
pruned walk only ever descends through non-skipped directory names, so
a file nested anywhere below an excluded directory (properly below the
walk root) is never enumerated. -/
theorem C2_filtering_safety :
    (∀ (dry : Bool) (wok : List String → Bool) (pre : List String) (t : Tree)
       (d0 : List String → Option Text) (p : List String),
       p ∈ (runS dry wok pre t d0).writes →
       p ∈ walk pre t ∧ should_process_file p = true) ∧
    (∀ p : List String, should_process_file p = true →
       CODE_EXTENSIONS.contains (pathExt p) = true ∧
       ∀ seg ∈ p, SKIP_DIRS.contains seg = false) ∧
    (∀ (t : Tree) (pre p : List String), p ∈ walk pre t →
       ∃ mid f, p = pre ++ t.dirName :: (mid ++ [f]) ∧
         ∀ d ∈ mid, SKIP_DIRS.contains d = false) := by
  refine ⟨?_, ?_, ?_⟩
  · intro dry wok pre t d0 p hp
    rcases runList_writes dry wok (walk pre t) (initState d0) p hp with h | h
    · simp [initState] at h
    · exact ⟨h.1, h.2⟩
  · exact should_process_file_spec
  · intro t pre p hp
    exact walk_shape (sizeOf t) t le_rfl pre p hp

theorem C2_filtering_safety_witness :
    (CODE_EXTENSIONS.contains (pathExt ["app", "src", "a.js"]) = true ∧
      ∀ seg ∈ ["app", "src", "a.js"], SKIP_DIRS.contains seg = false) ∧
    (∃ mid f, ["app", "lib", "b.ts"] = ["app"] ++ "lib" :: (mid ++ [f]) ∧
      ∀ d ∈ mid, SKIP_DIRS.contains d = false) := by
  constructor
  · exact C2_filtering_safety.2.1 ["app", "src", "a.js"] (by decide)
  · exact C2_filtering_safety.2.2 (Tree.node "lib" [] ["b.ts"]) ["app"]
      ["app", "lib", "b.ts"] (by simp [walk, walkList])

/-! ### Stage order: C6 -/

/-- Spec-side 4.7 ordering: 4.2 → 4.3 → 4.4 → 4.5. -/
def stagesSpec (ext : String) (c : Text) : Text :=
  normalize_comment_style
    (clean_empty_comment_blocks ((apply_replacements (remove_ai_lines c).1).1)) ext

theorem process_file_findings (dry : Bool) (wok : List String → Bool)
    (p : List String) (s : RunState) (orig : Text) (h : s.disk p = some orig) :
    (process_file dry wok p s).2.stats.findings =
      s.stats.findings ++ check_suspicious (transformContent (pathExt p) orig).1 p := by
  unfold process_file
  rw [h]
  simp only
  split
  · split
    · split
      · rfl
      · rfl
    · rfl
  · rfl

/-- C6.  A `.json` file skips stages 4.2–4.5 entirely (its content and
stage counts pass through untouched); any other file runs
removal → replacement → cleanup → normalization in that fixed order; in
both cases the suspicious-pattern scan then runs on the resulting
content.  Moreover no candidate file is ever a `.json` file, because
`.json` is not in the extension allow-set. -/
theorem C6_stage_order :
    (∀ c : Text, transformContent ".json" c = (c, 0, 0)) ∧
    (∀ (ext : String) (c : Text), ext ≠ ".json" →
      transformContent ext c =
        (stagesSpec ext c, (remove_ai_lines c).2,
         (apply_replacements (remove_ai_lines c).1).2)) ∧
    (∀ p : List String, should_process_file p = true → pathExt p ≠ ".json") ∧
    (∀ (dry : Bool) (wok : List String → Bool) (p : List String) (s : RunState)
       (orig : Text), s.disk p = some orig →
       (process_file dry wok p s).2.stats.findings =
         s.stats.findings ++ check_suspicious (transformContent (pathExt p) orig).1 p) := by
  refine ⟨?_, ?_, ?_, ?_⟩
  · intro c
    rfl
  · intro ext c hext
    unfold transformContent
    rw [if_pos hext]
    rfl
  · intro p hgate hjson
    have h1 := (should_process_file_spec p hgate).1
    rw [hjson] at h1
    exact absurd h1 (by decide)
  · exact process_file_findings

theorem C6_stage_order_witness :
    transformContent ".ts" (s2l "//x") =
      (stagesSpec ".ts" (s2l "//x"), (remove_ai_lines (s2l "//x")).2,
       (apply_replacements (remove_ai_lines (s2l "//x")).1).2) ∧
    pathExt ["r", "a.md"] ≠ ".json" :=
  ⟨C6_stage_order.2.1 ".ts" (s2l "//x") (by decide),
   C6_stage_order.2.2.1 ["r", "a.md"] (by decide)⟩

/-! ### Per-file I/O errors: C5 -/

/-- C5 counterexample.  A run over a single unreadable candidate file
(`disk` returns `none`): the file is logged and skipped and is not
counted as modified — but `files_processed` is still 1, because `run`
increments it before attempting the read.  The claim's "not counted in
the processed … counter" is false on the code. -/
theorem C5_counterexample :
    (runS false (fun _ => true) [] (Tree.node "root" [] ["a.js"])
      (fun _ => none)).stats.processed = 1 ∧
    (runS false (fun _ => true) [] (Tree.node "root" [] ["a.js"])
      (fun _ => none)).stats.modified = 0 ∧
    (runS false (fun _ => true) [] (Tree.node "root" [] ["a.js"])
      (fun _ => none)).log = [["root", "a.js"]] :=
  ⟨rfl, rfl, rfl⟩

/-- C5 as amended.  A file whose read fails is logged with its path and
skipped (state otherwise untouched); a file whose write fails is logged
with its path, reported unmodified, and leaves the modified counter and
the disk untouched; the run is a fold that always continues with the
remaining files; and a read-failed candidate still increments the
processed counter (which counts candidates attempted) while never
touching the modified counter. -/
theorem C5_io_error_skips_file :
    (∀ (dry : Bool) (wok : List String → Bool) (p : List String) (s : RunState),
       s.disk p = none →
       process_file dry wok p s = (false, { s with log := s.log ++ [p] })) ∧
    (∀ (wok : List String → Bool) (p : List String) (s : RunState) (orig : Text),
       s.disk p = some orig → wok p = false →
       (transformContent (pathExt p) orig).1 ≠ orig →
       (process_file false wok p s).1 = false ∧
       (process_file false wok p s).2.stats.modified = s.stats.modified ∧
       (process_file false wok p s).2.log = s.log ++ [p] ∧
       (process_file false wok p s).2.disk = s.disk) ∧
    (∀ (dry : Bool) (wok : List String → Bool) (l1 l2 : List (List String))
       (s : RunState),
       runList dry wok (l1 ++ l2) s = runList dry wok l2 (runList dry wok l1 s)) ∧
    (∀ (dry : Bool) (wok : List String → Bool) (s : RunState) (p : List String),
       should_process_file p = true → s.disk p = none →
       (runStep dry wok s p).stats.processed = s.stats.processed + 1 ∧
       (runStep dry wok s p).stats.modified = s.stats.modified ∧
       (runStep dry wok s p).log = s.log ++ [p]) := by
  refine ⟨process_file_none, ?_, ?_, ?_⟩
  · intro wok p s orig h hwok hne
    simp only [process_file, h]
    rw [if_pos hne, if_pos (show (!false) = true from rfl),
      if_neg (by simp [hwok])]
    exact ⟨rfl, rfl, rfl, rfl⟩
  · intro dry wok l1 l2 s
    simp [runList, List.foldl_append]
  · intro dry wok s p hgate h
    unfold runStep
    rw [if_pos hgate, process_file_none dry wok p
      { s with stats := { s.stats with processed := s.stats.processed + 1 } } h]
    exact ⟨rfl, rfl, rfl⟩

theorem C5_io_error_skips_file_witness :
    (process_file false (fun _ => true) ["r", "a.js"]
        (initState fun _ => none)).2.log = [["r", "a.js"]] ∧
    (process_file false (fun _ => false) ["r", "a.js"]
        (initState fun _ => some (s2l "//x"))).2.stats.modified = 0 := by
  constructor
  · have h := C5_io_error_skips_file.1 false (fun _ => true) ["r", "a.js"]
      (initState fun _ => none) rfl
    rw [h]
    rfl
  · have h := (C5_io_error_skips_file.2.1 (fun _ => false) ["r", "a.js"]
      (initState fun _ => some (s2l "//x")) (s2l "//x") rfl rfl (by decide)).2.1
    rw [h]
    rfl

/-! ### Dry-run parity: C1 -/

theorem runList_cons (dry : Bool) (wok : List String → Bool)
    (p : List String) (l : List (List String)) (s : RunState) :
    runList dry wok (p :: l) s = runList dry wok l (runStep dry wok s p) := rfl

theorem process_file_dry_inv (wok : List String → Bool) (p : List String)
    (s : RunState) :
    (process_file true wok p s).2.disk = s.disk ∧
    (process_file true wok p s).2.writes = s.writes := by
  unfold process_file
  cases h : s.disk p with
  | none => exact ⟨rfl, rfl⟩
  | some orig =>
    simp only
    split
    · exact ⟨rfl, rfl⟩
    · exact ⟨rfl, rfl⟩

theorem runStep_dry_inv (wok : List String → Bool) (s : RunState)
    (p : List String) :
    (runStep true wok s p).disk = s.disk ∧
    (runStep true wok s p).writes = s.writes := by
  unfold runStep
  by_cases hg : should_process_file p
  · rw [if_pos hg]
    exact process_file_dry_inv wok p _
  · rw [if_neg hg]
    exact ⟨rfl, rfl⟩

theorem runList_dry_inv (wok : List String → Bool) :
    ∀ (l : List (List String)) (s : RunState),
      (runList true wok l s).disk = s.disk ∧
      (runList true wok l s).writes = s.writes := by
  intro l
  induction l with
  | nil => intro s; exact ⟨rfl, rfl⟩
  | cons p l ih =>
    intro s
    rw [runList_cons]
    refine ⟨?_, ?_⟩
    · rw [(ih (runStep true wok s p)).1, (runStep_dry_inv wok s p).1]
    · rw [(ih (runStep true wok s p)).2, (runStep_dry_inv wok s p).2]

theorem process_file_disk_other (dry : Bool) (wok : List String → Bool)
    (p : List String) (s : RunState) (q : List String) (hq : q ≠ p) :
    (process_file dry wok p s).2.disk q = s.disk q := by
  unfold process_file
  cases h : s.disk p with
  | none => rfl
  | some orig =>
    simp only
    split
    · split
      · split
        · simp [hq]
        · rfl
      · rfl
    · rfl

theorem runStep_disk_other (dry : Bool) (wok : List String → Bool)
    (s : RunState) (p q : List String) (hq : q ≠ p) :
    (runStep dry wok s p).disk q = s.disk q := by
  unfold runStep
  by_cases hg : should_process_file p
  · rw [if_pos hg]
    exact process_file_disk_other dry wok p _ q hq
  · rw [if_neg hg]

theorem process_file_modified_dry (wok : List String → Bool) (p : List String)
    (s : RunState) (orig : Text) (h : s.disk p = some orig) :
    (process_file true wok p s).2.stats.modified =
      if (transformContent (pathExt p) orig).1 ≠ orig then s.stats.modified + 1
      else s.stats.modified := by
  simp only [process_file, h]
  by_cases hne : (transformContent (pathExt p) orig).1 ≠ orig
  · rw [if_pos hne, if_pos hne]
    rfl
  · rw [if_neg hne, if_neg hne]

theorem process_file_modified_wet (wok : List String → Bool) (p : List String)
    (s : RunState) (orig : Text) (h : s.disk p = some orig)
    (hwok : wok p = true) :
    (process_file false wok p s).2.stats.modified =
      if (transformContent (pathExt p) orig).1 ≠ orig then s.stats.modified + 1
      else s.stats.modified := by
  simp only [process_file, h]
  by_cases hne : (transformContent (pathExt p) orig).1 ≠ orig
  · rw [if_pos hne, if_pos hne, if_pos hwok]
    rfl
  · rw [if_neg hne, if_neg hne]

/-- One step increments the modified counter by the same amount in
dry-run and non-dry-run mode, provided the path reads the same content
from both disks and the write succeeds in the non-dry-run. -/
theorem runStep_modified_parity (wok : List String → Bool) (p : List String)
    (sw sd : RunState) (hwok : wok p = true) (hdisk : sw.disk p = sd.disk p) :
    ∃ δ : Nat,
      (runStep false wok sw p).stats.modified = sw.stats.modified + δ ∧
      (runStep true wok sd p).stats.modified = sd.stats.modified + δ := by
  unfold runStep
  by_cases hg : should_process_file p
  · rw [if_pos hg, if_pos hg]
    cases hd : sd.disk p with
    | none =>
      have hw : sw.disk p = none := by rw [hdisk, hd]
      rw [process_file_none false wok p
          { sw with stats := { sw.stats with processed := sw.stats.processed + 1 } } hw,
        process_file_none true wok p
          { sd with stats := { sd.stats with processed := sd.stats.processed + 1 } } hd]
      exact ⟨0, rfl, rfl⟩
    | some orig =>
      have hw : sw.disk p = some orig := by rw [hdisk, hd]
      rw [process_file_modified_wet wok p
          { sw with stats := { sw.stats with processed := sw.stats.processed + 1 } } orig hw hwok,
        process_file_modified_dry wok p
          { sd with stats := { sd.stats with processed := sd.stats.processed + 1 } } orig hd]
      by_cases hne : (transformContent (pathExt p) orig).1 ≠ orig
      · rw [if_pos hne, if_pos hne]
        exact ⟨1, rfl, rfl⟩
      · rw [if_neg hne, if_neg hne]
        exact ⟨0, rfl, rfl⟩
  · rw [if_neg hg, if_neg hg]
    exact ⟨0, rfl, rfl⟩

theorem runList_modified_parity (wok : List String → Bool)
    (hwok : ∀ q, wok q = true) :
    ∀ (l : List (List String)) (sw sd : RunState),
      l.Nodup → (∀ q ∈ l, sw.disk q = sd.disk q) →
      (runList false wok l sw).stats.modified + sd.stats.modified =
      (runList true wok l sd).stats.modified + sw.stats.modified := by
  intro l
  induction l with
  | nil =>
    intro sw sd _ _
    exact Nat.add_comm _ _
  | cons p l ih =>
    intro sw sd hnd hdisk
    obtain ⟨δ, hwst, hdst⟩ := runStep_modified_parity wok p sw sd (hwok p)
      (hdisk p (List.mem_cons_self _ _))
    have hdisk' : ∀ q ∈ l, (runStep false wok sw p).disk q =
        (runStep true wok sd p).disk q := by
      intro q hq
      have hqp : q ≠ p := by
        intro hqp
        rw [hqp] at hq
        exact (List.nodup_cons.mp hnd).1 hq
      rw [runStep_disk_other false wok sw p q hqp,
        runStep_disk_other true wok sd p q hqp]
      exact hdisk q (List.mem_cons_of_mem _ hq)
    have hrec := ih (runStep false wok sw p) (runStep true wok sd p)
      (List.nodup_cons.mp hnd).2 hdisk'
    rw [runList_cons, runList_cons]
    omega

/-- C1 counterexample.  The claim's counter-parity fails when a write
raises: over a tree with a single changed but unwritable file (write
oracle always `false`), the dry run counts the file as modified
(`files_modified = 1`, incremented before the skipped write), while the
non-dry run hits the write error and returns before
`files_modified += 1`, reporting 0 — the two invocations disagree on
identical input files. -/
theorem C1_counterexample :
    (runS true (fun _ => false) [] (Tree.node "r" [] ["a.js"])
        (fun _ => some (s2l "//x"))).stats.modified = 1 ∧
    (runS false (fun _ => false) [] (Tree.node "r" [] ["a.js"])
        (fun _ => some (s2l "//x"))).stats.modified = 0 :=
  ⟨rfl, rfl⟩

/-- C1 as amended.  In dry-run mode no path is ever opened for writing
and the disk is left exactly as it was, unconditionally; and the final
modified-file counter of a dry run equals that of a non-dry run over
the same tree and disk provided every write of the non-dry run
succeeds (and the walked paths are distinct, as `os.walk` guarantees) —
without that proviso a failed write is counted by the dry run but not
by the non-dry run. -/
theorem C1_dry_run_parity :
    (∀ (wok : List String → Bool) (pre : List String) (t : Tree)
       (d0 : List String → Option Text),
       (runS true wok pre t d0).writes = [] ∧
       (runS true wok pre t d0).disk = d0) ∧
    (∀ (wok : List String → Bool) (pre : List String) (t : Tree)
       (d0 : List String → Option Text),
       (∀ q, wok q = true) → (walk pre t).Nodup →
       (runS true wok pre t d0).stats.modified =
       (runS false wok pre t d0).stats.modified) := by
  constructor
  · intro wok pre t d0
    exact ⟨(runList_dry_inv wok (walk pre t) (initState d0)).2,
      (runList_dry_inv wok (walk pre t) (initState d0)).1⟩
  · intro wok pre t d0 hwok hnd
    have h := runList_modified_parity wok hwok (walk pre t)
      (initState d0) (initState d0) hnd (fun _ _ => rfl)
    have h0 : (initState d0).stats.modified = 0 := rfl
    unfold runS
    omega

theorem C1_dry_run_parity_witness :
    (runS true (fun _ => true) [] (Tree.node "r" [] ["a.js", "b.md"])
        (fun _ => some (s2l "//x"))).stats.modified =
    (runS false (fun _ => true) [] (Tree.node "r" [] ["a.js", "b.md"])
        (fun _ => some (s2l "//x"))).stats.modified :=
  C1_dry_run_parity.2 (fun _ => true) [] (Tree.node "r" [] ["a.js", "b.md"])
    (fun _ => some (s2l "//x")) (fun _ => rfl) (by decide)

end Sanitizer
